import Mathlib

/-!
Verification of the marker-detection and substitution pipeline of
src/字幕转markdown/scripts/screenshot.py.

The embedding works on documents as lists of characters. The marker pattern
of extract_screenshot_markers (line 24) is embedded as an explicit matcher:
an optional leading emphasis character, the case-sensitive literal
Screenshot-, then either a bracketed or a bare hh:mm:ss time with each field
exactly two digits; the digit token is modelled over ASCII. The scan follows
re.finditer: leftmost matches, non-overlapping, continuing after each match.
External effects are made explicit: the ffmpeg invocation of
generate_screenshot is a runner argument whose result the code discards
(check=False), and a per-iteration environment records whether frame
generation raised an exception for the marker at a given loop index.
-/

namespace Screenshot

/-- One decimal digit rendered as a character, as Python renders digits. -/
def digitChar (d : Nat) : Char :=
  if d = 0 then '0' else if d = 1 then '1' else if d = 2 then '2' else if d = 3 then '3'
  else if d = 4 then '4' else if d = 5 then '5' else if d = 6 then '6' else if d = 7 then '7'
  else if d = 8 then '8' else '9'

/-- Fuel-driven decimal rendering of a natural number. -/
def natCharsAux : Nat → Nat → List Char
  | 0, _ => []
  | f + 1, n => if n < 10 then [digitChar n] else natCharsAux f (n / 10) ++ [digitChar (n % 10)]

/-- Decimal rendering of a natural number, as Python str on a nonnegative int. -/
def natChars (n : Nat) : List Char := natCharsAux (n + 1) n

/-- Python %02d formatting of a nonnegative integer: zero-pad the decimal rendering
to width 2. -/
def format02 (n : Nat) : List Char :=
  if (natChars n).length < 2 then '0' :: natChars n else natChars n

/-- screenshot.py lines 40-42: filename derived from the offset. -/
def screenshot_filename (timestamp : Nat) : List Char :=
  "screenshot_".toList ++ format02 (timestamp / 60) ++ '_' :: format02 (timestamp % 60)
    ++ ".jpg".toList

/-- The result of subprocess.run with capture_output=True: a CompletedProcess value,
including the exit status of the external utility. -/
structure RunResult where
  returncode : Int
  stdout : List Char
  stderr : List Char
deriving DecidableEq

/-- screenshot.py lines 45-57: the ffmpeg command line. -/
def ffmpeg_cmd (video_path output_path : List Char) (timestamp : Nat) : List (List Char) :=
  ["ffmpeg".toList, "-ss".toList, natChars timestamp, "-i".toList, video_path,
   "-frames:v".toList, "1".toList, "-q:v".toList, "2".toList, output_path, "-y".toList]

/-- screenshot.py generate_screenshot (lines 35-60): derives the target path, invokes
the external capture utility with check=False, and returns the target path. The
external process is modelled by a runner whose result, a CompletedProcess value with
its exit status, is received and discarded, exactly as the source discards the value
of subprocess.run. -/
def generate_screenshot (runner : List (List Char) → RunResult)
    (video_path output_dir : List Char) (timestamp : Nat) : List Char :=
  let filename := screenshot_filename timestamp
  let output_path := output_dir ++ '/' :: filename
  let _ := runner (ffmpeg_cmd video_path output_path timestamp)
  output_path

/-- The literal part of the marker pattern, matched case-sensitively. -/
def screenshotLit : List Char := "Screenshot-".toList

/-- ASCII decimal digit test: the digit token of the pattern, modelled over ASCII. -/
def isDig (c : Char) : Bool := 48 ≤ c.toNat && c.toNat ≤ 57

/-- Numeric value of a digit character, as Python int on a digit. -/
def digitVal (c : Char) : Nat := c.toNat - 48

/-- hasStart pat s: pat is a leading fragment of s. -/
def hasStart : List Char → List Char → Bool
  | [], _ => true
  | _ :: _, [] => false
  | p :: ps, c :: cs => p == c && hasStart ps cs

/-- Match a literal character sequence at the head, returning the remainder. -/
def stripLit : List Char → List Char → Option (List Char)
  | [], s => some s
  | _ :: _, [] => none
  | p :: ps, c :: cs => if c = p then stripLit ps cs else none

/-- Match a two-digit hour, minute and second separated by colons; returns the matched
characters, the offset computed as in screenshot.py line 30, minutes times sixty plus
seconds with the hour field parsed and discarded, and the remaining input. The three
fixed-width fields and two separators are matched in one step; this is the sequential
left-to-right match of the time part of the pattern, which has no internal choice
points. -/
def matchHMS : List Char → Option (List Char × Nat × List Char)
  | h1 :: h2 :: c1 :: m1 :: m2 :: c2 :: x1 :: x2 :: s6 =>
    if isDig h1 && isDig h2 && (c1 = ':') && isDig m1 && isDig m2 && (c2 = ':')
        && isDig x1 && isDig x2 then
      some ([h1, h2, ':', m1, m2, ':', x1, x2],
        (10 * digitVal m1 + digitVal m2) * 60 + (10 * digitVal x1 + digitVal x2), s6)
    else none
  | _ => none

/-- The alternation after the literal: the bracketed time form is tried first; on its
failure the bare form is tried at the same position, and for input starting with a
bracket the bare form needs a digit first, so it fails there too. -/
def matchBody : List Char → Option (List Char × Nat × List Char)
  | [] => matchHMS []
  | c :: s1 =>
    if c = '[' then
      match matchHMS s1 with
      | some (cs, off, s2) =>
        match s2 with
        | ']' :: s3 => some ('[' :: (cs ++ [']']), off, s3)
        | _ => none
      | none => none
    else matchHMS (c :: s1)

/-- Match the literal then the time body, at the current position. -/
def tryNoStar (s : List Char) : Option (List Char × Nat × List Char) :=
  match stripLit screenshotLit s with
  | none => none
  | some s2 =>
    match matchBody s2 with
    | none => none
    | some (cs, off, rest) => some (screenshotLit ++ cs, off, rest)

/-- Match the whole pattern at the current position. The optional leading emphasis
character is tried greedily; when the input starts with that character and the rest
fails, backtracking to the empty alternative also fails, because the literal then has
to match at the emphasis character itself. -/
def matchMarkerAt : List Char → Option (List Char × Nat × List Char)
  | [] => tryNoStar []
  | c :: s1 =>
    if c = '*' then
      match tryNoStar s1 with
      | some (g, off, rest) => some ('*' :: g, off, rest)
      | none => none
    else tryNoStar (c :: s1)

/-- Left-to-right scan for non-overlapping matches, as re.finditer: on a match
continue after the matched text, otherwise advance one position. The fuel bounds the
recursion and never runs out when initialised with the length of the input, because
every match consumes at least one character. -/
def scanAux : Nat → List Char → List (List Char × Nat)
  | 0, _ => []
  | _ + 1, [] => []
  | fuel + 1, c :: rest =>
    match matchMarkerAt (c :: rest) with
    | some (g, off, after) => (g, off) :: scanAux fuel after
    | none => scanAux fuel rest

/-- screenshot.py extract_screenshot_markers (lines 20-32): every match of the marker
pattern, in document order, paired with its computed offset in seconds. -/
def extract_screenshot_markers (markdown : List Char) : List (List Char × Nat) :=
  scanAux markdown.length markdown

/-- The scan instrumented with the start position of each match. -/
def scanAuxPos : Nat → Nat → List Char → List (Nat × List Char × Nat)
  | 0, _, _ => []
  | _ + 1, _, [] => []
  | fuel + 1, pos, c :: rest =>
    match matchMarkerAt (c :: rest) with
    | some (g, off, after) =>
      (pos, g, off) :: scanAuxPos fuel (pos + (rest.length + 1 - after.length)) after
    | none => scanAuxPos fuel (pos + 1) rest

/-- Python str.replace with count one: replace the first occurrence of pat, if any. -/
def replaceFirst : List Char → List Char → List Char → List Char
  | [], pat, rep => if pat = [] then rep else []
  | c :: rest, pat, rep =>
    if hasStart pat (c :: rest) then rep ++ (c :: rest).drop pat.length
    else c :: replaceFirst rest pat rep

/-- Python rstrip applied to a slash: drop every trailing slash. -/
def rstripSlash (s : List Char) : List Char :=
  ((s.reverse).dropWhile (fun c => c == '/')).reverse

/-- pathlib Path.name: the final path component. -/
def pathName (p : List Char) : List Char :=
  ((p.reverse).takeWhile (fun c => !(c == '/'))).reverse

/-- The Markdown image reference written for a url. -/
def imageLink (url : List Char) : List Char := "![](".toList ++ url ++ [')']

/-- occursIn pat s: pat occurs as a contiguous fragment of s. -/
def occursIn (pat : List Char) : List Char → Bool
  | [] => pat.isEmpty
  | c :: rest => hasStart pat (c :: rest) || occursIn pat rest

/-- The loop of screenshot.py replace_screenshots (lines 79-85). Exceptions raised
while generating a frame are modelled by an environment mapping the loop index either
to none, meaning the iteration raised, was logged and skipped, or to the external
process result, meaning no exception: the first remaining occurrence of the marker
text is replaced by the image reference built from the base url and the generated
file name. -/
def substLoop (video_path output_dir image_base_url : List Char)
    (env : Nat → Option RunResult) :
    List Char → List (List Char × Nat) → Nat → List Char
  | md, [], _ => md
  | md, (marker, ts) :: rest, idx =>
    match env idx with
    | some r =>
      let img_path := generate_screenshot (fun _ => r) video_path output_dir ts
      let url := rstripSlash image_base_url ++ '/' :: pathName img_path
      substLoop video_path output_dir image_base_url env
        (replaceFirst md marker (imageLink url)) rest (idx + 1)
    | none => substLoop video_path output_dir image_base_url env md rest (idx + 1)

/-- screenshot.py replace_screenshots (lines 63-86): without a video the document is
returned unchanged; otherwise the markers are extracted once and processed in order. -/
def replace_screenshots (markdown : List Char) (video_path : Option (List Char))
    (output_dir image_base_url : List Char) (env : Nat → Option RunResult) : List Char :=
  match video_path with
  | none => markdown
  | some v =>
    substLoop v output_dir image_base_url env markdown
      (extract_screenshot_markers markdown) 0

/-- Shape of the characters matched by the time part of the pattern together with the
computed offset: six digit characters in the hh:mm:ss layout, the offset computed from
the minute and second fields only. -/
def isTimeChars (cs : List Char) (off : Nat) : Prop :=
  ∃ h1 h2 m1 m2 s1 s2,
    isDig h1 = true ∧ isDig h2 = true ∧ isDig m1 = true ∧ isDig m2 = true ∧
    isDig s1 = true ∧ isDig s2 = true ∧
    cs = [h1, h2, ':', m1, m2, ':', s1, s2] ∧
    off = (10 * digitVal m1 + digitVal m2) * 60 + (10 * digitVal s1 + digitVal s2)

/-- Shape of a full matched marker: an optional leading emphasis character, the
case-sensitive literal, then the time in bare or bracketed form. -/
def markerShape (raw : List Char) (off : Nat) : Prop :=
  ∃ pre time, (pre = ([] : List Char) ∨ pre = ['*']) ∧ isTimeChars time off ∧
    (raw = pre ++ screenshotLit ++ time ∨
     raw = pre ++ screenshotLit ++ ('[' :: (time ++ [']'])))

/-- Zero-padding to two digits as the specification words it: a number below ten gets
one leading zero, otherwise the plain decimal rendering is used. Stated from the
specification for comparison with the formatting the source performs. -/
def pad2_spec (n : Nat) : List Char := if n < 10 then '0' :: natChars n else natChars n

lemma isDig_bounds {c : Char} (h : isDig c = true) : 48 ≤ c.toNat ∧ c.toNat ≤ 57 := by
  simpa [isDig, Bool.and_eq_true, decide_eq_true_eq] using h

lemma digitVal_le {c : Char} (h : isDig c = true) : digitVal c ≤ 9 := by
  have := isDig_bounds h
  unfold digitVal
  omega

lemma hasStart_iff : ∀ {pat s : List Char}, hasStart pat s = true ↔ ∃ t, s = pat ++ t := by
  intro pat
  induction pat with
  | nil =>
    intro s
    constructor
    · intro _; exact ⟨s, rfl⟩
    · intro _; rfl
  | cons p ps ih =>
    intro s
    cases s with
    | nil =>
      constructor
      · intro h; exact absurd h (by simp [hasStart])
      · rintro ⟨t, ht⟩; exact absurd ht (by simp)
    | cons c cs =>
      simp only [hasStart, Bool.and_eq_true, beq_iff_eq]
      constructor
      · rintro ⟨rfl, h⟩
        obtain ⟨t, rfl⟩ := ih.mp h
        exact ⟨t, rfl⟩
      · rintro ⟨t, ht⟩
        injection ht with h1 h2
        exact ⟨h1.symm, ih.mpr ⟨t, h2⟩⟩

lemma hasStart_append (p t : List Char) : hasStart p (p ++ t) = true :=
  hasStart_iff.mpr ⟨t, rfl⟩

lemma stripLit_some : ∀ {l s r : List Char}, stripLit l s = some r → s = l ++ r := by
  intro l
  induction l with
  | nil =>
    intro s r h
    rw [stripLit] at h
    injection h with h'
  | cons p ps ih =>
    intro s r h
    cases s with
    | nil => simp [stripLit] at h
    | cons c cs =>
      rw [stripLit] at h
      split at h
      · rename_i hc
        subst hc
        simpa using ih h
      · exact absurd h (by simp)

lemma isTimeChars_le {cs : List Char} {off : Nat} (h : isTimeChars cs off) : off ≤ 6039 := by
  obtain ⟨h1, h2, m1, m2, s1, s2, _, _, d3, d4, d5, d6, _, hoff⟩ := h
  have b3 := digitVal_le d3
  have b4 := digitVal_le d4
  have b5 := digitVal_le d5
  have b6 := digitVal_le d6
  subst hoff
  nlinarith

lemma matchHMS_some {s cs : List Char} {off : Nat} {r : List Char}
    (h : matchHMS s = some (cs, off, r)) : s = cs ++ r ∧ isTimeChars cs off := by
  unfold matchHMS at h
  split at h
  · rename_i h1 h2 c1 m1 m2 c2 x1 x2 s6
    split at h
    · rename_i hcond
      simp only [Bool.and_eq_true, decide_eq_true_eq] at hcond
      obtain ⟨⟨⟨⟨⟨⟨⟨d1, d2⟩, hc1⟩, d3⟩, d4⟩, hc2⟩, d5⟩, d6⟩ := hcond
      subst hc1; subst hc2
      simp only [Option.some.injEq, Prod.mk.injEq] at h
      obtain ⟨hcs, hoff, hr⟩ := h
      subst hcs; subst hoff; subst hr
      exact ⟨rfl, h1, h2, m1, m2, x1, x2, d1, d2, d3, d4, d5, d6, rfl, rfl⟩
    · exact absurd h (by simp)
  · exact absurd h (by simp)

lemma matchBody_some {s cs : List Char} {off : Nat} {r : List Char}
    (h : matchBody s = some (cs, off, r)) :
    s = cs ++ r ∧ ∃ time, isTimeChars time off ∧
      (cs = time ∨ cs = '[' :: (time ++ [']'])) := by
  cases s with
  | nil =>
    simp [matchBody, matchHMS] at h
  | cons c s1 =>
    rw [matchBody] at h
    split at h
    · rename_i hc
      subst hc
      split at h
      · rename_i cs0 off0 s2 hm
        split at h
        · rename_i s3
          simp only [Option.some.injEq, Prod.mk.injEq] at h
          obtain ⟨hcs, hoff, hr⟩ := h
          obtain ⟨hdec, htime⟩ := matchHMS_some hm
          subst hoff; subst hr; subst hcs
          constructor
          · rw [hdec]; simp
          · exact ⟨cs0, htime, Or.inr rfl⟩
        · exact absurd h (by simp)
      · exact absurd h (by simp)
    · obtain ⟨hdec, htime⟩ := matchHMS_some h
      exact ⟨hdec, cs, htime, Or.inl rfl⟩

lemma tryNoStar_some {s g : List Char} {off : Nat} {r : List Char}
    (h : tryNoStar s = some (g, off, r)) :
    s = g ++ r ∧ ∃ time, isTimeChars time off ∧
      (g = screenshotLit ++ time ∨ g = screenshotLit ++ ('[' :: (time ++ [']']))) := by
  unfold tryNoStar at h
  split at h
  · exact absurd h (by simp)
  · rename_i s2 hstrip
    split at h
    · exact absurd h (by simp)
    · rename_i cs0 off0 rest0 hbody
      simp only [Option.some.injEq, Prod.mk.injEq] at h
      obtain ⟨hg, hoff, hr⟩ := h
      subst hoff; subst hr
      obtain ⟨hdec, time, htime, hcs⟩ := matchBody_some hbody
      constructor
      · rw [stripLit_some hstrip, hdec, ← hg]
        simp
      · rcases hcs with hcs | hcs
        · exact ⟨time, htime, Or.inl (by rw [← hg, hcs])⟩
        · exact ⟨time, htime, Or.inr (by rw [← hg, hcs])⟩

lemma matchMarkerAt_some : ∀ {s g : List Char} {off : Nat} {after : List Char},
    matchMarkerAt s = some (g, off, after) → s = g ++ after ∧ markerShape g off := by
  intro s g off after h
  cases s with
  | nil =>
    rw [matchMarkerAt] at h
    obtain ⟨hdec, time, htime, hg⟩ := tryNoStar_some h
    exact ⟨hdec, [], time, Or.inl rfl, htime, by simpa using hg⟩
  | cons c s1 =>
    rw [matchMarkerAt] at h
    split at h
    · rename_i hc
      subst hc
      split at h
      · rename_i g0 off0 rest0 htry
        simp only [Option.some.injEq, Prod.mk.injEq] at h
        obtain ⟨hg, hoff, hr⟩ := h
        subst hoff; subst hr
        obtain ⟨hdec, time, htime, hg0⟩ := tryNoStar_some htry
        constructor
        · rw [hdec, ← hg]; simp
        · refine ⟨['*'], time, Or.inr rfl, htime, ?_⟩
          rcases hg0 with h0 | h0
          · exact Or.inl (by rw [← hg, h0]; rfl)
          · exact Or.inr (by rw [← hg, h0]; rfl)
      · exact absurd h (by simp)
    · obtain ⟨hdec, time, htime, hg⟩ := tryNoStar_some h
      refine ⟨hdec, [], time, Or.inl rfl, htime, ?_⟩
      rcases hg with h0 | h0
      · exact Or.inl (by rw [h0]; rfl)
      · exact Or.inr (by rw [h0]; rfl)

lemma markerShape_mem_S {raw : List Char} {off : Nat} (h : markerShape raw off) :
    'S' ∈ raw := by
  obtain ⟨pre, time, _, _, hraw⟩ := h
  have hS : 'S' ∈ screenshotLit := by decide
  rcases hraw with hr | hr <;> subst hr <;>
    simp [List.mem_append, hS]

lemma markerShape_ne_nil {raw : List Char} {off : Nat} (h : markerShape raw off) :
    raw ≠ [] := by
  intro hnil
  have := markerShape_mem_S h
  rw [hnil] at this
  simp at this

lemma matchMarkerAt_lt {s g : List Char} {off : Nat} {after : List Char}
    (h : matchMarkerAt s = some (g, off, after)) : after.length < s.length := by
  obtain ⟨hdec, hshape⟩ := matchMarkerAt_some h
  have hg := markerShape_ne_nil hshape
  have : s.length = g.length + after.length := by rw [hdec]; simp
  have : 0 < g.length := List.length_pos.mpr hg
  omega

lemma scanAux_mem : ∀ {fuel : Nat} {s : List Char} {p : List Char × Nat},
    p ∈ scanAux fuel s → markerShape p.1 p.2 := by
  intro fuel
  induction fuel with
  | zero => intro s p h; simp [scanAux] at h
  | succ f ih =>
    intro s p h
    cases s with
    | nil => simp [scanAux] at h
    | cons c rest =>
      cases hm : matchMarkerAt (c :: rest) with
      | some t =>
        obtain ⟨g, off, after⟩ := t
        have hs : scanAux (f + 1) (c :: rest) = (g, off) :: scanAux f after := by
          rw [scanAux, hm]
        rw [hs, List.mem_cons] at h
        rcases h with h | h
        · subst h; exact (matchMarkerAt_some hm).2
        · exact ih h
      | none =>
        have hs : scanAux (f + 1) (c :: rest) = scanAux f rest := by
          rw [scanAux, hm]
        rw [hs] at h
        exact ih h

lemma matchMarkerAt_mem_S {s : List Char} {t : List Char × Nat × List Char}
    (h : matchMarkerAt s = some t) : 'S' ∈ s := by
  obtain ⟨g, off, after⟩ := t
  obtain ⟨hdec, hshape⟩ := matchMarkerAt_some h
  rw [hdec]
  exact List.mem_append_left _ (markerShape_mem_S hshape)

lemma scanAux_eq_nil : ∀ {fuel : Nat} {s : List Char}, 'S' ∉ s → scanAux fuel s = [] := by
  intro fuel
  induction fuel with
  | zero => intro s _; rw [scanAux]
  | succ f ih =>
    intro s hS
    cases s with
    | nil => rw [scanAux]
    | cons c rest =>
      cases hm : matchMarkerAt (c :: rest) with
      | some t => exact absurd (matchMarkerAt_mem_S hm) hS
      | none =>
        have hs : scanAux (f + 1) (c :: rest) = scanAux f rest := by
          rw [scanAux, hm]
        rw [hs]
        exact ih (fun hmem => hS (List.mem_cons_of_mem _ hmem))

lemma natCharsAux_ne_nil {f n : Nat} (hf : 0 < f) : natCharsAux f n ≠ [] := by
  cases f with
  | zero => omega
  | succ k =>
    rw [natCharsAux]
    split
    · simp
    · simp

lemma natCharsAux_mem : ∀ {f n : Nat} {c : Char},
    c ∈ natCharsAux f n → ∃ d, d ≤ 9 ∧ c = digitChar d := by
  intro f
  induction f with
  | zero => intro n c h; simp [natCharsAux] at h
  | succ k ih =>
    intro n c h
    rw [natCharsAux] at h
    split at h
    · rename_i hn
      rw [List.mem_singleton] at h
      exact ⟨n, by omega, h⟩
    · rw [List.mem_append] at h
      rcases h with h | h
      · exact ih h
      · rw [List.mem_singleton] at h
        exact ⟨n % 10, by omega, h⟩

lemma natChars_mem {n : Nat} {c : Char} (h : c ∈ natChars n) :
    ∃ d, d ≤ 9 ∧ c = digitChar d :=
  natCharsAux_mem h

lemma digitChar_ne_S (d : Nat) : digitChar d ≠ 'S' := by
  unfold digitChar
  split_ifs <;> decide

lemma digitChar_ne_slash (d : Nat) : digitChar d ≠ '/' := by
  unfold digitChar
  split_ifs <;> decide

lemma natChars_lt10 {n : Nat} (h : n < 10) : natChars n = [digitChar n] := by
  unfold natChars
  rw [natCharsAux, if_pos h]

lemma natChars_len_ge2 {n : Nat} (h : 10 ≤ n) : 2 ≤ (natChars n).length := by
  unfold natChars
  have hn : ¬ n < 10 := by omega
  rw [natCharsAux, if_neg hn]
  have h1 : natCharsAux n (n / 10) ≠ [] := @natCharsAux_ne_nil n (n / 10) (by omega)
  have h2 : 0 < (natCharsAux n (n / 10)).length := List.length_pos.mpr h1
  simp only [List.length_append, List.length_singleton]
  omega

lemma format02_eq_pad2 (n : Nat) : format02 n = pad2_spec n := by
  unfold format02 pad2_spec
  by_cases h : n < 10
  · have hlen : (natChars n).length < 2 := by rw [natChars_lt10 h]; simp
    rw [if_pos hlen, if_pos h]
  · have hlen : ¬ (natChars n).length < 2 := by
      have := @natChars_len_ge2 n (by omega)
      omega
    rw [if_neg hlen, if_neg h]

lemma format02_mem {n : Nat} {c : Char} (h : c ∈ format02 n) :
    c = '0' ∨ ∃ d, d ≤ 9 ∧ c = digitChar d := by
  unfold format02 at h
  split at h
  · rw [List.mem_cons] at h
    rcases h with h | h
    · exact Or.inl h
    · exact Or.inr (natChars_mem h)
  · exact Or.inr (natChars_mem h)

lemma format02_not_S {n : Nat} : 'S' ∉ format02 n := by
  intro h
  rcases format02_mem h with h | ⟨d, _, h⟩
  · exact absurd h (by decide)
  · exact digitChar_ne_S d h.symm

lemma format02_not_slash {n : Nat} : '/' ∉ format02 n := by
  intro h
  rcases format02_mem h with h | ⟨d, _, h⟩
  · exact absurd h (by decide)
  · exact digitChar_ne_slash d h.symm

lemma screenshot_filename_not_S {ts : Nat} : 'S' ∉ screenshot_filename ts := by
  intro h
  unfold screenshot_filename at h
  rcases List.mem_append.mp h with h1 | h1
  · rcases List.mem_append.mp h1 with h2 | h2
    · rcases List.mem_append.mp h2 with h3 | h3
      · exact absurd h3 (by decide)
      · exact format02_not_S h3
    · rcases List.mem_cons.mp h2 with h3 | h3
      · exact absurd h3 (by decide)
      · exact format02_not_S h3
  · exact absurd h1 (by decide)

lemma screenshot_filename_not_slash {ts : Nat} : '/' ∉ screenshot_filename ts := by
  intro h
  unfold screenshot_filename at h
  rcases List.mem_append.mp h with h1 | h1
  · rcases List.mem_append.mp h1 with h2 | h2
    · rcases List.mem_append.mp h2 with h3 | h3
      · exact absurd h3 (by decide)
      · exact format02_not_slash h3
    · rcases List.mem_cons.mp h2 with h3 | h3
      · exact absurd h3 (by decide)
      · exact format02_not_slash h3
  · exact absurd h1 (by decide)

lemma takeWhile_append_all {p : Char → Bool} : ∀ {l : List Char} {x : Char} {t : List Char},
    (∀ c ∈ l, p c = true) → p x = false → (l ++ x :: t).takeWhile p = l := by
  intro l
  induction l with
  | nil =>
    intro x t _ hx
    simp [List.takeWhile, hx]
  | cons a l ih =>
    intro x t hl hx
    have ha : p a = true := hl a (List.mem_cons_self a l)
    rw [List.cons_append]
    simp only [List.takeWhile, ha]
    rw [ih (fun c hc => hl c (List.mem_cons_of_mem a hc)) hx]

lemma pathName_append {d f : List Char} (hf : '/' ∉ f) : pathName (d ++ '/' :: f) = f := by
  unfold pathName
  have hline : (d ++ '/' :: f).reverse = f.reverse ++ '/' :: d.reverse := by
    rw [List.reverse_append, List.reverse_cons, List.append_assoc]
    rfl
  have hall : ∀ c ∈ f.reverse, (!(c == '/')) = true := by
    intro c hc
    have : c ≠ '/' := fun e => hf (e ▸ List.mem_reverse.mp hc)
    simp [this]
  have hx : (!(('/' : Char) == '/')) = false := by decide
  rw [hline, takeWhile_append_all hall hx, List.reverse_reverse]

lemma replaceFirst_of_not_occurs : ∀ {s : List Char} (pat rep : List Char),
    occursIn pat s = false → replaceFirst s pat rep = s := by
  intro s
  induction s with
  | nil =>
    intro pat rep h
    rw [occursIn] at h
    rw [replaceFirst, if_neg (show ¬ pat = [] from fun e => by simp [e] at h)]
  | cons c cs ih =>
    intro pat rep h
    rw [occursIn, Bool.or_eq_false_iff] at h
    rw [replaceFirst, if_neg (by simp [h.1]), ih pat rep h.2]

lemma replaceFirst_first_occurrence : ∀ {s : List Char} (pat rep : List Char),
    occursIn pat s = true →
    ∃ pre post, s = pre ++ pat ++ post ∧
      replaceFirst s pat rep = pre ++ rep ++ post ∧
      ∀ pre2 post2, s = pre2 ++ pat ++ post2 → pre.length ≤ pre2.length := by
  intro s
  induction s with
  | nil =>
    intro pat rep h
    rw [occursIn] at h
    have hpat : pat = [] := by
      cases pat with
      | nil => rfl
      | cons a l => simp at h
    subst hpat
    exact ⟨[], [], rfl, by rw [replaceFirst, if_pos rfl]; simp, fun pre2 post2 _ => by simp⟩
  | cons c cs ih =>
    intro pat rep h
    by_cases hs : hasStart pat (c :: cs) = true
    · obtain ⟨t, ht⟩ := hasStart_iff.mp hs
      refine ⟨[], t, by simpa using ht, ?_, fun pre2 post2 _ => by simp⟩
      rw [replaceFirst, if_pos hs, ht, List.drop_left]
      rfl
    · have hocc : occursIn pat cs = true := by
        rw [occursIn, Bool.or_eq_true] at h
        rcases h with h' | h'
        · exact absurd h' hs
        · exact h'
      obtain ⟨pre, post, hdec, hrep, hmin⟩ := ih pat rep hocc
      refine ⟨c :: pre, post, by simp [hdec], ?_, ?_⟩
      · rw [replaceFirst, if_neg hs, hrep]
        rfl
      · intro pre2 post2 heq
        cases pre2 with
        | nil =>
          exfalso
          exact hs (hasStart_iff.mpr ⟨post2, by simpa using heq⟩)
        | cons e pre2t =>
          have heq2 : c :: cs = e :: (pre2t ++ (pat ++ post2)) := by
            simpa [List.append_assoc] using heq
          injection heq2 with hce hcs
          have := hmin pre2t post2 (by simpa [List.append_assoc] using hcs)
          simp only [List.length_cons]
          omega

lemma substLoop_nil (v dir base : List Char) (env : Nat → Option RunResult)
    (md : List Char) (idx : Nat) : substLoop v dir base env md [] idx = md := by
  rw [substLoop]

lemma substLoop_none_step (v dir base : List Char) (env : Nat → Option RunResult)
    (md marker : List Char) (ts : Nat) (rest : List (List Char × Nat)) (idx : Nat)
    (h : env idx = none) :
    substLoop v dir base env md ((marker, ts) :: rest) idx
      = substLoop v dir base env md rest (idx + 1) := by
  rw [substLoop, h]

lemma substLoop_all_none (v dir base : List Char) (env : Nat → Option RunResult)
    (h : ∀ i, env i = none) :
    ∀ (l : List (List Char × Nat)) (md : List Char) (idx : Nat),
      substLoop v dir base env md l idx = md := by
  intro l
  induction l with
  | nil => intro md idx; rw [substLoop]
  | cons p rest ih =>
    intro md idx
    obtain ⟨marker, ts⟩ := p
    rw [substLoop, h idx]
    exact ih md (idx + 1)

lemma drop_append_len : ∀ (g t : List Char) (k : Nat),
    (g ++ t).drop (g.length + k) = t.drop k := by
  intro g
  induction g with
  | nil => intro t k; simp
  | cons a g ih =>
    intro t k
    have hlen : (a :: g).length + k = (g.length + k) + 1 := by
      simp only [List.length_cons]
      omega
    rw [hlen, List.cons_append, List.drop_succ_cons, ih]

lemma scanAuxPos_map : ∀ (fuel pos : Nat) (s : List Char),
    (scanAuxPos fuel pos s).map (fun q => (q.2.1, q.2.2)) = scanAux fuel s := by
  intro fuel
  induction fuel with
  | zero => intro pos s; simp [scanAuxPos, scanAux]
  | succ f ih =>
    intro pos s
    cases s with
    | nil => simp [scanAuxPos, scanAux]
    | cons c rest =>
      cases hm : matchMarkerAt (c :: rest) with
      | some t =>
        obtain ⟨g, off, after⟩ := t
        have h1 : scanAuxPos (f + 1) pos (c :: rest)
            = (pos, g, off) :: scanAuxPos f (pos + (rest.length + 1 - after.length)) after := by
          rw [scanAuxPos, hm]
        have h2 : scanAux (f + 1) (c :: rest) = (g, off) :: scanAux f after := by
          rw [scanAux, hm]
        rw [h1, h2, List.map_cons, ih]
      | none =>
        have h1 : scanAuxPos (f + 1) pos (c :: rest) = scanAuxPos f (pos + 1) rest := by
          rw [scanAuxPos, hm]
        have h2 : scanAux (f + 1) (c :: rest) = scanAux f rest := by
          rw [scanAux, hm]
        rw [h1, h2, ih]

lemma scanAuxPos_ge : ∀ {fuel pos : Nat} {s : List Char} {q : Nat × List Char × Nat},
    q ∈ scanAuxPos fuel pos s → pos ≤ q.1 := by
  intro fuel
  induction fuel with
  | zero => intro pos s q h; simp [scanAuxPos] at h
  | succ f ih =>
    intro pos s q h
    cases s with
    | nil => simp [scanAuxPos] at h
    | cons c rest =>
      cases hm : matchMarkerAt (c :: rest) with
      | some t =>
        obtain ⟨g, off, after⟩ := t
        have h1 : scanAuxPos (f + 1) pos (c :: rest)
            = (pos, g, off) :: scanAuxPos f (pos + (rest.length + 1 - after.length)) after := by
          rw [scanAuxPos, hm]
        rw [h1, List.mem_cons] at h
        rcases h with h | h
        · subst h; exact Nat.le_refl pos
        · exact Nat.le_trans (Nat.le_add_right pos _) (ih h)
      | none =>
        have h1 : scanAuxPos (f + 1) pos (c :: rest) = scanAuxPos f (pos + 1) rest := by
          rw [scanAuxPos, hm]
        rw [h1] at h
        exact Nat.le_trans (Nat.le_add_right pos 1) (ih h)

lemma scanAuxPos_chain : ∀ (fuel pos : Nat) (s : List Char),
    List.Chain' (fun a b => a < b) ((scanAuxPos fuel pos s).map (fun q => q.1)) := by
  intro fuel
  induction fuel with
  | zero => intro pos s; simp [scanAuxPos]
  | succ f ih =>
    intro pos s
    cases s with
    | nil => simp [scanAuxPos]
    | cons c rest =>
      cases hm : matchMarkerAt (c :: rest) with
      | some t =>
        obtain ⟨g, off, after⟩ := t
        have h1 : scanAuxPos (f + 1) pos (c :: rest)
            = (pos, g, off) :: scanAuxPos f (pos + (rest.length + 1 - after.length)) after := by
          rw [scanAuxPos, hm]
        rw [h1, List.map_cons, List.chain'_cons']
        constructor
        · intro b hb
          rw [List.head?_map] at hb
          obtain ⟨q, hq, hqb⟩ := Option.map_eq_some'.mp hb
          have hqmem : q ∈ scanAuxPos f (pos + (rest.length + 1 - after.length)) after :=
            List.mem_of_mem_head? hq
          have hge := scanAuxPos_ge hqmem
          have hcons : 1 ≤ rest.length + 1 - after.length := by
            have hlt := matchMarkerAt_lt hm
            simp only [List.length_cons] at hlt
            omega
          omega
        · exact ih _ _
      | none =>
        have h1 : scanAuxPos (f + 1) pos (c :: rest) = scanAuxPos f (pos + 1) rest := by
          rw [scanAuxPos, hm]
        rw [h1]
        exact ih _ _

lemma scanAuxPos_start : ∀ {fuel pos : Nat} {s : List Char} {q : Nat × List Char × Nat},
    q ∈ scanAuxPos fuel pos s →
    ∃ k, q.1 = pos + k ∧ hasStart q.2.1 (s.drop k) = true := by
  intro fuel
  induction fuel with
  | zero => intro pos s q h; simp [scanAuxPos] at h
  | succ f ih =>
    intro pos s q h
    cases s with
    | nil => simp [scanAuxPos] at h
    | cons c rest =>
      cases hm : matchMarkerAt (c :: rest) with
      | some t =>
        obtain ⟨g, off, after⟩ := t
        obtain ⟨hdec, _⟩ := matchMarkerAt_some hm
        have hglen : rest.length + 1 - after.length = g.length := by
          have hlen : (c :: rest).length = g.length + after.length := by
            rw [hdec]; simp
          simp only [List.length_cons] at hlen
          omega
        have h1 : scanAuxPos (f + 1) pos (c :: rest)
            = (pos, g, off) :: scanAuxPos f (pos + (rest.length + 1 - after.length)) after := by
          rw [scanAuxPos, hm]
        rw [h1, List.mem_cons] at h
        rcases h with h | h
        · subst h
          refine ⟨0, by simp, ?_⟩
          simp only [List.drop_zero]
          rw [hdec]
          exact hasStart_append g after
        · obtain ⟨k, hk, hstart⟩ := ih h
          refine ⟨g.length + k, by rw [hk, hglen]; omega, ?_⟩
          rw [hdec, drop_append_len]
          exact hstart
      | none =>
        have h1 : scanAuxPos (f + 1) pos (c :: rest) = scanAuxPos f (pos + 1) rest := by
          rw [scanAuxPos, hm]
        rw [h1] at h
        obtain ⟨k, hk, hstart⟩ := ih h
        refine ⟨k + 1, by omega, ?_⟩
        rw [List.drop_succ_cons]
        exact hstart

/-- C1: for every document, every extracted marker's offset equals minutes times
sixty plus seconds, computed from the second and third two-digit fields of the
matched time; the hour digits are part of the matched text but do not enter the
offset. In particular the marker Screenshot-00:03:12 yields offset 192, and so does
Screenshot-07:03:12, which differs only in the hour field. -/
theorem extract_offset_is_minutes_seconds :
    (∀ md raw off, (raw, off) ∈ extract_screenshot_markers md →
      ∃ h1 h2 m1 m2 s1 s2 p q,
        isDig h1 = true ∧ isDig h2 = true ∧ isDig m1 = true ∧ isDig m2 = true ∧
        isDig s1 = true ∧ isDig s2 = true ∧
        raw = p ++ [h1, h2, ':', m1, m2, ':', s1, s2] ++ q ∧
        off = (10 * digitVal m1 + digitVal m2) * 60 + (10 * digitVal s1 + digitVal s2))
  ∧ extract_screenshot_markers "Screenshot-00:03:12".toList
      = [("Screenshot-00:03:12".toList, 192)]
  ∧ extract_screenshot_markers "Screenshot-07:03:12".toList
      = [("Screenshot-07:03:12".toList, 192)] := by
  refine ⟨?_, by decide, by decide⟩
  intro md raw off hmem
  have hshape := scanAux_mem hmem
  dsimp only at hshape
  obtain ⟨pre, time, hpre, ⟨h1, h2, m1, m2, s1, s2, d1, d2, d3, d4, d5, d6, htime, hoff⟩, hraw⟩ :=
    hshape
  subst htime
  rcases hraw with hr | hr
  · exact ⟨h1, h2, m1, m2, s1, s2, pre ++ screenshotLit, [],
      d1, d2, d3, d4, d5, d6, by rw [hr]; simp, hoff⟩
  · exact ⟨h1, h2, m1, m2, s1, s2, pre ++ screenshotLit ++ ['['], [']'],
      d1, d2, d3, d4, d5, d6, by rw [hr]; simp, hoff⟩

/-- C1 witness: the general clause of the theorem applied to the document
Screenshot-00:03:12 and its extracted marker with offset 192. -/
theorem extract_offset_is_minutes_seconds_witness :
    (("Screenshot-00:03:12".toList, 192)
        ∈ extract_screenshot_markers "Screenshot-00:03:12".toList)
  ∧ ∃ h1 h2 m1 m2 s1 s2 p q,
      isDig h1 = true ∧ isDig h2 = true ∧ isDig m1 = true ∧ isDig m2 = true ∧
      isDig s1 = true ∧ isDig s2 = true ∧
      "Screenshot-00:03:12".toList = p ++ [h1, h2, ':', m1, m2, ':', s1, s2] ++ q ∧
      192 = (10 * digitVal m1 + digitVal m2) * 60 + (10 * digitVal s1 + digitVal s2) :=
  ⟨by decide, extract_offset_is_minutes_seconds.1 "Screenshot-00:03:12".toList
    "Screenshot-00:03:12".toList 192 (by decide)⟩

/-- C2: the engine processes exactly the markers the extractor found at the start of
the run, one loop step per extracted marker in document order; a successful step
performs one replacement, of the first remaining occurrence of the marker's exact
raw text, characterized here for replaceFirst; concretely, two identical markers are
substituted independently and in order, the first occurrence being resolved before
the second is attempted, each consuming one generated asset. -/
theorem substitution_processes_extracted_markers_once :
    (∀ md v dir base env,
        replace_screenshots md (some v) dir base env
          = substLoop v dir base env md (extract_screenshot_markers md) 0)
  ∧ (∀ s pat rep, occursIn pat s = false → replaceFirst s pat rep = s)
  ∧ (∀ s pat rep, occursIn pat s = true →
        ∃ pre post, s = pre ++ pat ++ post ∧
          replaceFirst s pat rep = pre ++ rep ++ post ∧
          ∀ pre2 post2, s = pre2 ++ pat ++ post2 → pre.length ≤ pre2.length)
  ∧ replace_screenshots "Screenshot-00:03:12 and Screenshot-00:03:12".toList
      (some "v.mp4".toList) "output/assets".toList "assets".toList
      (fun _ => some ⟨0, [], []⟩)
      = "![](assets/screenshot_03_12.jpg) and ![](assets/screenshot_03_12.jpg)".toList
  ∧ replace_screenshots "Screenshot-00:03:12 and Screenshot-00:03:12".toList
      (some "v.mp4".toList) "output/assets".toList "assets".toList
      (fun i => if i = 0 then some ⟨0, [], []⟩ else none)
      = "![](assets/screenshot_03_12.jpg) and Screenshot-00:03:12".toList := by
  refine ⟨fun md v dir base env => rfl,
    fun s pat rep h => replaceFirst_of_not_occurs pat rep h,
    fun s pat rep h => replaceFirst_first_occurrence pat rep h, by decide, by decide⟩

/-- C2 witness: the replaceFirst clauses of the theorem applied to concrete strings,
one without and one with an occurrence of the pattern. -/
theorem substitution_processes_extracted_markers_once_witness :
    replaceFirst "abc".toList "zz".toList "Q".toList = "abc".toList
  ∧ ∃ pre post, "abcb".toList = pre ++ "b".toList ++ post ∧
      replaceFirst "abcb".toList "b".toList "Q".toList = pre ++ "Q".toList ++ post ∧
      ∀ pre2 post2, "abcb".toList = pre2 ++ "b".toList ++ post2 →
        pre.length ≤ pre2.length :=
  ⟨substitution_processes_extracted_markers_once.2.1 "abc".toList "zz".toList "Q".toList
    (by decide),
   substitution_processes_extracted_markers_once.2.2.1 "abcb".toList "b".toList "Q".toList
    (by decide)⟩

/-- C3 (amended): when frame generation raises for a marker, that loop iteration
leaves the document completely unchanged and processing continues with the next
marker, so earlier substitutions are kept and the run is never aborted; if every
marker fails, the output equals the input byte for byte. The original claim that the
failed marker's raw text always remains present in the output is refuted by the
accompanying counterexample. -/
theorem failed_marker_step_leaves_document_unchanged :
    (∀ v dir base env md marker ts rest idx, env idx = none →
        substLoop v dir base env md ((marker, ts) :: rest) idx
          = substLoop v dir base env md rest (idx + 1))
  ∧ (∀ v dir base env md, (∀ i, env i = none) →
        replace_screenshots md (some v) dir base env = md) := by
  constructor
  · intro v dir base env md marker ts rest idx h
    exact substLoop_none_step v dir base env md marker ts rest idx h
  · intro v dir base env md h
    exact substLoop_all_none v dir base env h _ md 0

/-- C3 witness: the theorem applied to a concrete document, marker list and an
environment on which every generation raises. -/
theorem failed_marker_step_leaves_document_unchanged_witness :
    substLoop "v".toList "d".toList "b".toList (fun _ => none) "x".toList
        [("m".toList, 5)] 0
      = substLoop "v".toList "d".toList "b".toList (fun _ => none) "x".toList [] 1
  ∧ replace_screenshots "x".toList (some "v".toList) "d".toList "b".toList
        (fun _ => none) = "x".toList :=
  ⟨failed_marker_step_leaves_document_unchanged.1 _ _ _ _ _ _ _ _ _ rfl,
   failed_marker_step_leaves_document_unchanged.2 _ _ _ _ _ (fun _ => rfl)⟩

/-- C3 (counterexample): in a document holding a starred marker followed by its
unstarred twin, the starred marker's generation raises while the later bare marker
succeeds; the bare marker's replacement consumes the occurrence inside the starred
text, so the failed marker's raw text is not present in the output at all. -/
theorem failed_marker_text_not_preserved_cex :
    ("*Screenshot-00:01:02".toList, 62)
        ∈ extract_screenshot_markers "*Screenshot-00:01:02 Screenshot-00:01:02".toList
  ∧ (fun i : Nat => if i = 0 then (none : Option RunResult) else some ⟨0, [], []⟩) 0
      = none
  ∧ occursIn "*Screenshot-00:01:02".toList
      (replace_screenshots "*Screenshot-00:01:02 Screenshot-00:01:02".toList
        (some "v.mp4".toList) "output/assets".toList "assets".toList
        (fun i => if i = 0 then none else some ⟨0, [], []⟩)) = false := by
  refine ⟨by decide, rfl, by decide⟩

/-- C4: with no video resource supplied, the substitution returns the input document
unchanged, whatever the document, output directory, base url and environment; the
markers remain as literal text. -/
theorem no_video_returns_input_unchanged :
    ∀ md dir base env, replace_screenshots md none dir base env = md :=
  fun _ _ _ _ => rfl

/-- C5: every extracted marker is, up to an optional leading emphasis character, the
case-sensitive literal Screenshot- followed by a bare or bracketed time with each
field exactly two digits; both surface forms and the emphasis variant are recognized
concretely, while strings not of these forms, a lowercase literal, an uppercase
literal, or a one-digit field, are not. -/
theorem marker_surface_forms :
    (∀ md raw off, (raw, off) ∈ extract_screenshot_markers md →
      ∃ pre time, (pre = ([] : List Char) ∨ pre = ['*']) ∧
        (∃ h1 h2 m1 m2 s1 s2,
          isDig h1 = true ∧ isDig h2 = true ∧ isDig m1 = true ∧ isDig m2 = true ∧
          isDig s1 = true ∧ isDig s2 = true ∧
          time = [h1, h2, ':', m1, m2, ':', s1, s2]) ∧
        (raw = pre ++ screenshotLit ++ time ∨
         raw = pre ++ screenshotLit ++ ('[' :: (time ++ [']']))))
  ∧ extract_screenshot_markers "Screenshot-[00:03:12]".toList
      = [("Screenshot-[00:03:12]".toList, 192)]
  ∧ extract_screenshot_markers "*Screenshot-00:03:12".toList
      = [("*Screenshot-00:03:12".toList, 192)]
  ∧ extract_screenshot_markers "screenshot-00:03:12".toList = []
  ∧ extract_screenshot_markers "SCREENSHOT-00:03:12".toList = []
  ∧ extract_screenshot_markers "Screenshot-0:03:12".toList = [] := by
  refine ⟨?_, by decide, by decide, by decide, by decide, by decide⟩
  intro md raw off hmem
  have hshape := scanAux_mem hmem
  dsimp only at hshape
  obtain ⟨pre, time, hpre, ⟨h1, h2, m1, m2, s1, s2, d1, d2, d3, d4, d5, d6, htime, _⟩, hraw⟩ :=
    hshape
  exact ⟨pre, time, hpre, ⟨h1, h2, m1, m2, s1, s2, d1, d2, d3, d4, d5, d6, htime⟩, hraw⟩

/-- C5 witness: the general clause of the theorem applied to the bracketed marker of
the document Screenshot-[00:03:12]. -/
theorem marker_surface_forms_witness :
    (("Screenshot-[00:03:12]".toList, 192)
        ∈ extract_screenshot_markers "Screenshot-[00:03:12]".toList)
  ∧ ∃ pre time, (pre = ([] : List Char) ∨ pre = ['*']) ∧
      (∃ h1 h2 m1 m2 s1 s2,
        isDig h1 = true ∧ isDig h2 = true ∧ isDig m1 = true ∧ isDig m2 = true ∧
        isDig s1 = true ∧ isDig s2 = true ∧
        time = [h1, h2, ':', m1, m2, ':', s1, s2]) ∧
      ("Screenshot-[00:03:12]".toList = pre ++ screenshotLit ++ time ∨
       "Screenshot-[00:03:12]".toList
          = pre ++ screenshotLit ++ ('[' :: (time ++ [']']))) :=
  ⟨by decide, marker_surface_forms.1 "Screenshot-[00:03:12]".toList
    "Screenshot-[00:03:12]".toList 192 (by decide)⟩

/-- C6: extraction returns its results in document order, as the positions of the
instrumented scan are strictly increasing and the scan projects onto the extractor's
output, with each raw text occurring at its recorded position; identical markers are
not deduplicated, one entry per textual occurrence; and a document with no match, or
the empty document, yields the empty sequence. -/
theorem extract_document_order_no_dedup :
    (∀ md, extract_screenshot_markers md
        = (scanAuxPos md.length 0 md).map (fun q => (q.2.1, q.2.2)))
  ∧ (∀ md, List.Chain' (fun a b => a < b)
        ((scanAuxPos md.length 0 md).map (fun q => q.1)))
  ∧ (∀ md q, q ∈ scanAuxPos md.length 0 md → hasStart q.2.1 (md.drop q.1) = true)
  ∧ extract_screenshot_markers "Screenshot-00:03:12 Screenshot-00:03:12".toList
      = [("Screenshot-00:03:12".toList, 192), ("Screenshot-00:03:12".toList, 192)]
  ∧ extract_screenshot_markers "no markers here".toList = []
  ∧ extract_screenshot_markers ([] : List Char) = [] := by
  refine ⟨?_, ?_, ?_, by decide, by decide, rfl⟩
  · intro md
    exact (scanAuxPos_map md.length 0 md).symm
  · intro md
    exact scanAuxPos_chain md.length 0 md
  · intro md q hq
    obtain ⟨k, hk, hstart⟩ := scanAuxPos_start hq
    rw [hk]
    simpa using hstart

/-- C6 witness: the position clause of the theorem applied to the marker found at
position zero of the document Screenshot-00:03:12. -/
theorem extract_document_order_no_dedup_witness :
    ((0, "Screenshot-00:03:12".toList, 192)
        ∈ scanAuxPos ("Screenshot-00:03:12".toList).length 0 "Screenshot-00:03:12".toList)
  ∧ hasStart "Screenshot-00:03:12".toList ("Screenshot-00:03:12".toList.drop 0) = true :=
  ⟨by decide, extract_document_order_no_dedup.2.2.1 "Screenshot-00:03:12".toList
    (0, "Screenshot-00:03:12".toList, 192) (by decide)⟩

/-- C7: the frame extractor never inspects the external process result: for every
pair of runners, in particular ones returning different exit statuses, the call
returns the same derived target path, namely the output directory joined with the
offset-derived filename, whether or not the external utility succeeded. -/
theorem generate_screenshot_ignores_process_result :
    ∀ runner1 runner2 v dir t,
      generate_screenshot runner1 v dir t = generate_screenshot runner2 v dir t
    ∧ generate_screenshot runner1 v dir t = dir ++ '/' :: screenshot_filename t :=
  fun _ _ _ _ _ => ⟨rfl, rfl⟩

/-- C8: the target filename is derived deterministically from the offset as
screenshot_MM_SS.jpg with MM the offset divided by sixty and SS the remainder, each
zero-padded to two digits as the specification words it; two calls with equal
offsets against the same output directory yield the same target path, whatever the
runner and the video. -/
theorem screenshot_filename_deterministic_from_offset :
    (∀ t, screenshot_filename t
        = "screenshot_".toList ++ pad2_spec (t / 60) ++ '_' :: pad2_spec (t % 60)
            ++ ".jpg".toList)
  ∧ (∀ runner1 runner2 v1 v2 dir t1 t2, t1 = t2 →
        generate_screenshot runner1 v1 dir t1 = generate_screenshot runner2 v2 dir t2) := by
  constructor
  · intro t
    unfold screenshot_filename
    rw [format02_eq_pad2, format02_eq_pad2]
  · rintro r1 r2 v1 v2 dir t1 t2 rfl
    rfl

/-- C8 witness: the determinism clause of the theorem applied at offset 192 with two
different runners and videos, together with the concrete filename at 192. -/
theorem screenshot_filename_deterministic_from_offset_witness :
    screenshot_filename 192 = "screenshot_03_12.jpg".toList
  ∧ generate_screenshot (fun _ => ⟨0, [], []⟩) "a.mp4".toList "d".toList 192
      = generate_screenshot (fun _ => ⟨1, [], []⟩) "b.mp4".toList "d".toList 192 :=
  ⟨by decide, screenshot_filename_deterministic_from_offset.2 _ _ _ _ _ 192 192 rfl⟩

/-- C9 (amended): any marker match contains the character S, which image references
built from the program's base url lack, so generated links are never re-matched as
markers; a pass over a document in which the extractor finds nothing is the
identity; and in a document whose markers have distinct raw texts, the second pass
re-extracts exactly the marker the first pass failed to resolve and resolves it
while leaving the substituted link intact. The original claim that the second pass
retries exactly the unresolved markers fails in general and is refuted by the
accompanying counterexample. -/
theorem second_pass_image_links_not_rematched :
    (∀ md, 'S' ∉ md → extract_screenshot_markers md = [])
  ∧ (∀ ts, 'S' ∉ imageLink (rstripSlash "assets".toList ++ '/' :: screenshot_filename ts))
  ∧ (∀ md v dir base env, extract_screenshot_markers md = [] →
        replace_screenshots md (some v) dir base env = md)
  ∧ extract_screenshot_markers (replace_screenshots
        "Screenshot-00:03:12 Screenshot-00:04:00".toList
        (some "v.mp4".toList) "output/assets".toList "assets".toList
        (fun i => if i = 0 then some ⟨0, [], []⟩ else none))
      = [("Screenshot-00:04:00".toList, 240)]
  ∧ replace_screenshots (replace_screenshots
        "Screenshot-00:03:12 Screenshot-00:04:00".toList
        (some "v.mp4".toList) "output/assets".toList "assets".toList
        (fun i => if i = 0 then some ⟨0, [], []⟩ else none))
        (some "v.mp4".toList) "output/assets".toList "assets".toList
        (fun _ => some ⟨0, [], []⟩)
      = "![](assets/screenshot_03_12.jpg) ![](assets/screenshot_04_00.jpg)".toList := by
  refine ⟨?_, ?_, ?_, by decide, by decide⟩
  · intro md h
    exact scanAux_eq_nil h
  · intro ts h
    unfold imageLink at h
    rcases List.mem_append.mp h with h1 | h1
    · rcases List.mem_append.mp h1 with h2 | h2
      · exact absurd h2 (by decide)
      · rcases List.mem_append.mp h2 with h3 | h3
        · exact absurd h3 (by decide)
        · rcases List.mem_cons.mp h3 with h4 | h4
          · exact absurd h4 (by decide)
          · exact screenshot_filename_not_S h4
    · exact absurd (List.mem_singleton.mp h1) (by decide)
  · intro md v dir base env h
    show substLoop v dir base env md (extract_screenshot_markers md) 0 = md
    rw [h]
    exact substLoop_nil v dir base env md 0

/-- C9 witness: the clauses of the theorem applied to a document without the marker
literal, to offset 192, and to a pass over that document. -/
theorem second_pass_image_links_not_rematched_witness :
    extract_screenshot_markers "abc".toList = []
  ∧ ('S' ∉ imageLink (rstripSlash "assets".toList ++ '/' :: screenshot_filename 192))
  ∧ replace_screenshots "abc".toList (some "v".toList) "d".toList "assets".toList
        (fun _ => some ⟨0, [], []⟩) = "abc".toList :=
  ⟨second_pass_image_links_not_rematched.1 "abc".toList (by decide),
   second_pass_image_links_not_rematched.2.1 192,
   second_pass_image_links_not_rematched.2.2.1 "abc".toList "v".toList "d".toList
    "assets".toList (fun _ => some ⟨0, [], []⟩) (by decide)⟩

/-- C9 (counterexample): with the starred marker failing and its unstarred twin
succeeding, the markers re-extracted from the output are not the markers left
unresolved by the first pass: the unresolved starred marker does not appear, while
the raw text of the already resolved bare marker is re-extracted and would be
retried by a second pass. -/
theorem second_pass_retries_resolved_marker_cex :
    extract_screenshot_markers "*Screenshot-00:01:02 Screenshot-00:01:02".toList
      = [("*Screenshot-00:01:02".toList, 62), ("Screenshot-00:01:02".toList, 62)]
  ∧ (fun i : Nat => if i = 0 then (none : Option RunResult) else some ⟨0, [], []⟩) 0
      = none
  ∧ (fun i : Nat => if i = 0 then (none : Option RunResult) else some ⟨0, [], []⟩) 1
      = some ⟨0, [], []⟩
  ∧ extract_screenshot_markers (replace_screenshots
        "*Screenshot-00:01:02 Screenshot-00:01:02".toList
        (some "v.mp4".toList) "output/assets".toList "assets".toList
        (fun i => if i = 0 then none else some ⟨0, [], []⟩))
      = [("Screenshot-00:01:02".toList, 62)]
  ∧ ("*Screenshot-00:01:02".toList, 62)
      ∉ extract_screenshot_markers (replace_screenshots
        "*Screenshot-00:01:02 Screenshot-00:01:02".toList
        (some "v.mp4".toList) "output/assets".toList "assets".toList
        (fun i => if i = 0 then none else some ⟨0, [], []⟩)) := by
  refine ⟨by decide, rfl, rfl, by decide, by decide⟩

/-- C10: every offset an extracted marker carries is at most 6039, the largest value
of minutes times sixty plus seconds with two-digit fields; this bound holds for
every marker handed on to frame generation. -/
theorem extract_offset_bounded :
    ∀ md raw off, (raw, off) ∈ extract_screenshot_markers md → off ≤ 6039 := by
  intro md raw off hmem
  have hshape := scanAux_mem hmem
  dsimp only at hshape
  obtain ⟨_, _, _, htime, _⟩ := hshape
  exact isTimeChars_le htime

/-- C10 witness: the theorem applied to the marker of the document
Screenshot-00:03:12, whose offset 192 is within the bound. -/
theorem extract_offset_bounded_witness :
    (("Screenshot-00:03:12".toList, 192)
        ∈ extract_screenshot_markers "Screenshot-00:03:12".toList)
  ∧ 192 ≤ 6039 :=
  ⟨by decide, extract_offset_bounded "Screenshot-00:03:12".toList
    "Screenshot-00:03:12".toList 192 (by decide)⟩

end Screenshot
